import Mathlib

/-!
Verification of the OMNIVAULT client (frontend/src) and of the spec-modelled
parts of its ingestion backend.

The client code embedded here comes from:
- `frontend/src/components/ChatArea.js` (upload file selector, `pollFileStatus`,
  the `setUploadedFiles` status update, `parseMessage`),
- `frontend/src/App.js` (`addMessage`: mode mapping, request building, response
  field extraction),
- `frontend/src/components/Settings.js` (localStorage-backed settings).

The backend ingestion pipeline (job state machine, chunker) is not part of the
source tree; those definitions are modelled from the specification and say so
in their doc comments.
-/

namespace Omnivault

/-! ## Job status state machine (modelled from the spec) -/

/-- Modelled from the spec: the backend Job Tracker's status values are
`queued, extracting, chunking, embedding, indexing, completed, failed`
(§3 IngestionJob).  The backend source is not in the repository snapshot;
only this client is. -/
inductive JobStatus where
  | queued
  | extracting
  | chunking
  | embedding
  | indexing
  | completed
  | failed
deriving DecidableEq, Repr

/-- The seven status values, in spec order. -/
def allStatuses : List JobStatus :=
  [.queued, .extracting, .chunking, .embedding, .indexing, .completed, .failed]

/-- Position of a status in the forward-progress order; `failed` is given the
largest ordinal (it is reachable from every non-terminal state). -/
def statusOrd : JobStatus → Nat
  | .queued => 0
  | .extracting => 1
  | .chunking => 2
  | .embedding => 3
  | .indexing => 4
  | .completed => 5
  | .failed => 6

/-- Modelled from the spec: the pipeline successor of each stage
(`queued → extracting → chunking → embedding → indexing → completed`, §4.5).
Terminal states have no successor. -/
def statusNext : JobStatus → Option JobStatus
  | .queued => some .extracting
  | .extracting => some .chunking
  | .chunking => some .embedding
  | .embedding => some .indexing
  | .indexing => some .completed
  | .completed => none
  | .failed => none

/-- Modelled from the spec: one Job Tracker transition — either the pipeline
successor, or any non-terminal state jumping to `failed` (§4.5). -/
def statusStep (s t : JobStatus) : Bool :=
  (statusNext s == some t) ||
    (t == .failed && !(s == .completed) && !(s == .failed))

/-- A status is reachable from another when zero or more tracker transitions
lead from the first to the second (what can happen between two successive
polls of the same job). -/
def statusReach (s t : JobStatus) : Prop :=
  Relation.ReflTransGen (fun a b => statusStep a b = true) s t

/-- A list of statuses observed by successive polls of one job: between any
two successive observations the job advanced by zero or more transitions. -/
def PollChain (obs : List JobStatus) : Prop :=
  List.Chain' statusReach obs

/-- The non-failed pipeline stages in order, as listed by the spec. -/
def canonicalStatuses : List JobStatus :=
  [.queued, .extracting, .chunking, .embedding, .indexing, .completed]

/-- The observed sequence is eventually constantly `failed`, i.e. its last
element is `failed` (for a finite observation list the two are equivalent). -/
def endsInFailed (obs : List JobStatus) : Prop :=
  obs.getLast? = some JobStatus.failed

theorem statusStep_failed_false (t : JobStatus) : statusStep .failed t = false := by
  cases t <;> rfl

theorem statusStep_ord {s t : JobStatus} (h : statusStep s t = true) :
    t = .failed ∨ statusOrd t = statusOrd s + 1 := by
  revert h
  cases s <;> cases t <;> decide

theorem statusStep_src_ne {s t : JobStatus} (h : statusStep s t = true) :
    s ≠ .failed ∧ s ≠ .completed := by
  revert h
  cases s <;> cases t <;> decide

theorem statusReach_failed {t : JobStatus} (h : statusReach .failed t) :
    t = .failed := by
  induction h with
  | refl => rfl
  | tail _ hbc ih =>
    subst ih
    rw [statusStep_failed_false] at hbc
    cases hbc

theorem statusReach_ord {s t : JobStatus} (h : statusReach s t) :
    t = .failed ∨ (s ≠ .failed ∧ statusOrd s ≤ statusOrd t) := by
  induction h with
  | refl =>
    rcases eq_or_ne s .failed with hs | hs
    · exact Or.inl hs
    · exact Or.inr ⟨hs, Nat.le_refl _⟩
  | tail _ hbc ih =>
    rcases statusStep_ord hbc with hc | hc
    · exact Or.inl hc
    · rcases ih with hb | ⟨hsne, hle⟩
      · exact absurd hb (statusStep_src_ne hbc).1
      · exact Or.inr ⟨hsne, by omega⟩

theorem statusOrd_inj {s t : JobStatus} (h : statusOrd s = statusOrd t) : s = t := by
  revert h
  cases s <;> cases t <;> decide

theorem takeWhile_sublist_self (p : JobStatus → Bool) (l : List JobStatus) :
    List.Sublist (l.takeWhile p) l := by
  induction l with
  | nil => exact List.Sublist.refl _
  | cons a l ih =>
    rw [List.takeWhile]
    cases p a
    · exact List.nil_sublist _
    · exact List.Sublist.cons₂ a ih

theorem pollChain_failed_absorbing (obs : List JobStatus) (h : PollChain obs) :
    ∀ k i (hi : i < obs.length) (hk : i + k < obs.length),
      obs.get ⟨i, hi⟩ = JobStatus.failed → obs.get ⟨i + k, hk⟩ = JobStatus.failed := by
  intro k
  induction k with
  | zero => intro i hi hk hf; exact hf
  | succ k ih =>
    intro i hi hk hf
    have hmid : i + k < obs.length := by omega
    have hk1 : obs.get ⟨i + k, hmid⟩ = JobStatus.failed := ih i hi hmid hf
    have hstep := List.chain'_iff_get.mp h (i + k) (by omega)
    rw [hk1] at hstep
    exact statusReach_failed hstep

/-- C1 (amended): every status observed by the polling client is one of the
seven spec values; once a poll observes `failed` every later poll observes
`failed`; and the sequence of observed statuses with consecutive duplicates
removed, restricted to the part before the first `failed`, is a subsequence of
`[queued, extracting, chunking, embedding, indexing, completed]`.  (The claim
as stated fails only because polling can observe the same status twice; the
duplicate-free form is what holds.) -/
theorem C1_observed_status_monotonicity (obs : List JobStatus) (h : PollChain obs) :
    (∀ x ∈ obs, x ∈ allStatuses) ∧
    List.Sublist ((obs.takeWhile (fun s => s ≠ JobStatus.failed)).destutter (· ≠ ·))
      canonicalStatuses ∧
    (∀ i j (hi : i < obs.length) (hj : j < obs.length), i ≤ j →
      obs.get ⟨i, hi⟩ = JobStatus.failed → obs.get ⟨j, hj⟩ = JobStatus.failed) := by
  haveI instTrans : IsTrans JobStatus statusReach :=
    ⟨fun _ _ _ hab hbc => hab.trans hbc⟩
  refine ⟨?_, ?_, ?_⟩
  · intro x _
    cases x <;> simp [allStatuses]
  · set p : JobStatus → Bool := fun s => decide (s ≠ JobStatus.failed) with hp
    set pre := obs.takeWhile p with hpre
    set d := pre.destutter (· ≠ ·) with hd
    have hpre_chain : pre.Chain' statusReach := h.sublist (takeWhile_sublist_self p obs)
    have hd_sub : List.Sublist d pre := List.destutter_sublist (R := (· ≠ ·)) pre
    have hd_reach : d.Chain' statusReach := hpre_chain.sublist hd_sub
    have hd_ne : d.Chain' (· ≠ ·) := List.destutter_is_chain' (R := (· ≠ ·)) pre
    have hd_mem : ∀ x ∈ d, x ≠ JobStatus.failed := by
      intro x hx
      have := List.mem_takeWhile_imp (hd_sub.subset hx)
      simpa [hp] using this
    have hd_strict : d.Chain' (fun a b => statusOrd a < statusOrd b) := by
      rw [List.chain'_iff_get] at hd_reach hd_ne ⊢
      intro i hi
      have h1 := hd_ne i hi
      have h2 := hd_reach i hi
      have hb : d.get ⟨i + 1, by omega⟩ ≠ JobStatus.failed := by
        apply hd_mem
        exact List.get_mem d (i + 1) (by omega)
      rcases statusReach_ord h2 with hf | ⟨_, hle⟩
      · exact absurd hf hb
      · rcases Nat.lt_or_ge (statusOrd (d.get ⟨i, by omega⟩))
          (statusOrd (d.get ⟨i + 1, by omega⟩)) with hlt | hge
        · exact hlt
        · exact absurd (statusOrd_inj (Nat.le_antisymm hle hge)) h1
    haveI : IsTrans JobStatus (fun a b => statusOrd a < statusOrd b) :=
      ⟨fun _ _ _ h1 h2 => Nat.lt_trans h1 h2⟩
    haveI : IsAntisymm JobStatus (fun a b => statusOrd a < statusOrd b) :=
      ⟨fun _ _ h1 h2 => absurd (Nat.lt_trans h1 h2) (Nat.lt_irrefl _)⟩
    have hpair : d.Pairwise (fun a b => statusOrd a < statusOrd b) :=
      List.chain'_iff_pairwise.mp hd_strict
    have hnodup : d.Nodup :=
      hpair.imp fun hab heq => absurd (heq ▸ hab) (Nat.lt_irrefl _)
    have hsubset : d ⊆ canonicalStatuses := by
      intro x hx
      have hxf := hd_mem x hx
      cases x <;> simp_all [canonicalStatuses]
    have hsubperm := List.subperm_of_subset hnodup hsubset
    have hcsorted : canonicalStatuses.Pairwise (fun a b => statusOrd a < statusOrd b) := by
      decide
    exact List.sublist_of_subperm_of_sorted hsubperm hpair hcsorted
  · intro i j hi hj hij hf
    obtain ⟨k, rfl⟩ : ∃ k, j = i + k := ⟨j - i, by omega⟩
    exact pollChain_failed_absorbing obs h k i hi hj hf

/-- C1 (counterexample): two successive polls may observe `queued` twice
(the job did not advance between polls).  The observed sequence
`[queued, queued]` is a valid poll chain, yet it is not a subsequence of
`[queued, extracting, chunking, embedding, indexing, completed]` and does not
end in `failed`, refuting the claim as stated. -/
theorem C1_repeated_poll_counterexample :
    PollChain [JobStatus.queued, JobStatus.queued] ∧
    ¬ (List.Sublist [JobStatus.queued, JobStatus.queued] canonicalStatuses ∨
        endsInFailed [JobStatus.queued, JobStatus.queued]) := by
  constructor
  · exact List.chain'_pair.mpr Relation.ReflTransGen.refl
  · rintro (hsub | hend)
    · exact absurd (hsub.nodup (by decide)) (by decide)
    · simp only [endsInFailed] at hend
      exact absurd hend (by decide)

/-- C1 (witness): a concrete poll chain — `queued` observed twice, then
`extracting`, then `failed` twice — satisfies the amended statement. -/
theorem C1_observed_status_monotonicity_witness :
    PollChain [JobStatus.queued, JobStatus.queued, JobStatus.extracting,
        JobStatus.failed, JobStatus.failed] ∧
    List.Sublist (([JobStatus.queued, JobStatus.queued, JobStatus.extracting,
        JobStatus.failed, JobStatus.failed].takeWhile
          (fun s => s ≠ JobStatus.failed)).destutter (· ≠ ·))
      canonicalStatuses := by
  have hc : PollChain [JobStatus.queued, JobStatus.queued, JobStatus.extracting,
      JobStatus.failed, JobStatus.failed] := by
    simp only [PollChain, List.chain'_cons]
    refine ⟨Relation.ReflTransGen.refl,
      Relation.ReflTransGen.single (by decide),
      Relation.ReflTransGen.single (by decide),
      Relation.ReflTransGen.refl, ?_⟩
    exact List.chain'_singleton _
  exact ⟨hc, (C1_observed_status_monotonicity _ hc).2.1⟩

/-! ## Client-side status polling (`pollFileStatus` in ChatArea.js) -/

/-- The JSON body of a successful `GET /api/upload/status/:fileId` response,
as the client reads it. -/
structure StatusResponse where
  status : String
  progress : Option Nat
  message : Option String
  chunks_added : Option Nat
  word_count : Option Nat
  file_type : Option String
deriving DecidableEq, Repr

/-- Outcome of one poll: a transient read failure (non-ok HTTP response,
network error, or unparsable body — anything reaching the `catch` block), or
a parsed status body. -/
inductive PollResult where
  | err
  | ok (status : StatusResponse)
deriving DecidableEq, Repr

/-- `const maxAttempts = 60` in `pollFileStatus`. -/
def maxAttempts : Nat := 60

/-- The re-poll decision of one iteration of `poll`: given the poll's outcome
and the current `attempts` counter, `some delay` when another `setTimeout`
is scheduled (1000 ms while the job is still in progress, 2000 ms after a
transient error), `none` when the loop ends. -/
def pollContinues : PollResult → Nat → Option Nat
  | .err, attempts => if attempts < maxAttempts then some 2000 else none
  | .ok st, attempts =>
      if st.status ≠ "completed" ∧ st.status ≠ "failed" ∧ attempts < maxAttempts then
        some 1000
      else none

/-- The trace of the polling loop: the list of delays scheduled before each
re-poll, given the sequence of outcomes the server side produces for the
successive fetches and the starting `attempts` counter.  One response is
consumed per poll; the loop ends when `pollContinues` yields `none` (terminal
status, or attempt cap reached, or no further response). -/
def pollTrace : List PollResult → Nat → List Nat
  | [], _ => []
  | r :: rs, attempts =>
      match pollContinues r attempts with
      | some d => d :: pollTrace rs (attempts + 1)
      | none => []

/-- The delay the client uses after a given poll outcome when it re-polls:
2000 ms after a transient error, 1000 ms otherwise. -/
def pollDelay : PollResult → Nat
  | .err => 2000
  | .ok _ => 1000

theorem pollTrace_length_le (rs : List PollResult) :
    ∀ a, (pollTrace rs a).length ≤ maxAttempts - a := by
  induction rs with
  | nil => intro a; simp [pollTrace]
  | cons r rs ih =>
    intro a
    rw [pollTrace]
    rcases hc : pollContinues r a with _ | d
    · simp
    · have ha : a < maxAttempts := by
        rcases r with _ | st <;> simp only [pollContinues] at hc <;> split at hc <;>
          simp_all
      have hlen := ih (a + 1)
      simp only [List.length_cons]
      omega

theorem pollTrace_get (rs : List PollResult) :
    ∀ a i (hi : i < (pollTrace rs a).length) (hi' : i < rs.length),
      (pollTrace rs a).get ⟨i, hi⟩ = pollDelay (rs.get ⟨i, hi'⟩) := by
  induction rs with
  | nil => intro a i hi hi'; simp [pollTrace] at hi
  | cons r rs ih =>
    intro a i hi hi'
    revert hi
    rw [pollTrace]
    rcases hc : pollContinues r a with _ | d
    · intro hi; simp at hi
    · intro hi
      match i with
      | 0 =>
        have hd : d = pollDelay r := by
          rcases r with _ | st <;> simp only [pollContinues] at hc <;> split at hc <;>
            simp_all [pollDelay]
        simp [hd]
      | i + 1 =>
        simp only [List.get_cons_succ]
        exact ih (a + 1) i _ _

/-- C2: the client-side polling loop started by `pollFileStatus` terminates:
whatever outcomes the successive fetches produce, at most `maxAttempts = 60`
re-polls are scheduled (so at most 61 fetches happen in total), and the `i`-th
re-poll is scheduled `setTimeout`-style after 1000 ms when the `i`-th fetch
returned a still-in-progress status and after 2000 ms when it failed
transiently. -/
theorem C2_poll_bounded_retry (rs : List PollResult) :
    (pollTrace rs 0).length ≤ maxAttempts ∧
    (∀ i (hi : i < (pollTrace rs 0).length) (hi' : i < rs.length),
      (pollTrace rs 0).get ⟨i, hi⟩ = pollDelay (rs.get ⟨i, hi'⟩)) := by
  exact ⟨by simpa using pollTrace_length_le rs 0, fun i hi hi' => pollTrace_get rs 0 i hi hi'⟩

/-- C2 (witness): with a transient error on the first fetch, an in-progress
status on the second and `completed` on the third, the loop schedules exactly
the delays 2000 ms then 1000 ms and stops. -/
theorem C2_poll_bounded_retry_witness :
    (pollTrace [PollResult.err,
        PollResult.ok ⟨"extracting", some 40, none, none, none, none⟩,
        PollResult.ok ⟨"completed", some 100, none, some 3, some 200, some "txt"⟩] 0).get
      ⟨0, by decide⟩ = pollDelay PollResult.err := by
  exact (C2_poll_bounded_retry _).2 0 (by decide) (by decide)

/-- A status body the client treats as terminal: the re-poll guard is
`status.status !== 'completed' && status.status !== 'failed'`. -/
def terminalStatus (st : StatusResponse) : Prop :=
  st.status = "failed" ∨ st.status = "completed"

theorem pollTrace_stops_at_terminal (st : StatusResponse) (hterm : terminalStatus st) :
    ∀ (rs : List PollResult) a i (hi : i < rs.length),
      rs.get ⟨i, hi⟩ = PollResult.ok st → (pollTrace rs a).length ≤ i := by
  intro rs
  induction rs with
  | nil => intro a i hi; simp at hi
  | cons r rs ih =>
    intro a i hi hget
    match i with
    | 0 =>
      simp only [List.get] at hget
      subst hget
      rw [pollTrace]
      have : pollContinues (PollResult.ok st) a = none := by
        rcases hterm with h | h <;> simp [pollContinues, h]
      rw [this]
      simp
    | i + 1 =>
      simp only [List.get_cons_succ] at hget
      rw [pollTrace]
      rcases hc : pollContinues r a with _ | d
      · simp
      · simpa using ih (a + 1) i (by simpa using hi) hget

/-- C3: for a polled file, a poll whose body has status `failed` (or
`completed`) ends the loop — if the `i`-th fetch returns a terminal status, at
most `i` re-polls are ever scheduled, so no poll after the `i`-th happens —
whereas a transient read failure (non-ok response or network error) with
attempts remaining is retried after the 2000 ms backoff rather than treated
as terminal. -/
theorem C3_terminal_vs_transient (rs : List PollResult) (a : Nat) (st : StatusResponse) :
    (terminalStatus st → pollTrace (PollResult.ok st :: rs) a = []) ∧
    (a < maxAttempts → pollTrace (PollResult.err :: rs) a = 2000 :: pollTrace rs (a + 1)) ∧
    (∀ i (hi : i < rs.length), rs.get ⟨i, hi⟩ = PollResult.ok st → terminalStatus st →
      (pollTrace rs a).length ≤ i) := by
  refine ⟨?_, ?_, ?_⟩
  · intro hterm
    rw [pollTrace]
    have : pollContinues (PollResult.ok st) a = none := by
      rcases hterm with h | h <;> simp [pollContinues, h]
    rw [this]
  · intro ha
    rw [pollTrace]
    simp [pollContinues, ha]
  · intro i hi hget hterm
    exact pollTrace_stops_at_terminal st hterm rs a i hi hget

/-- C3 (witness): a fetch that returns status `failed` on a concrete response
stream ends the loop immediately; no further poll is scheduled. -/
theorem C3_terminal_vs_transient_witness :
    pollTrace [PollResult.ok ⟨"failed", some 40, some "boom", none, none, none⟩,
      PollResult.err] 0 = [] := by
  exact (C3_terminal_vs_transient [PollResult.err] 0
    ⟨"failed", some 40, some "boom", none, none, none⟩).1 (Or.inl rfl)

/-! ## The uploaded-files status update (`setUploadedFiles` map in `pollFileStatus`) -/

/-- One entry of the `uploadedFiles` list in ChatArea.js. -/
structure UploadedFile where
  id : String
  name : String
  status : String
  progress : Nat
  uploadedAt : String
  message : Option String
  chunks : Option Nat
  wordCount : Option Nat
  fileType : Option String
deriving DecidableEq, Repr

/-- The object spread `{...f, status: ..., progress: status.progress || 0,
message: ..., chunks: ..., wordCount: ..., fileType: ...}` applied to a file
entry (JS `status.progress || 0` and `Option.getD 0` agree: a missing or zero
progress both yield 0). -/
def applyStatus (st : StatusResponse) (f : UploadedFile) : UploadedFile :=
  { f with
    status := st.status
    progress := st.progress.getD 0
    message := st.message
    chunks := st.chunks_added
    wordCount := st.word_count
    fileType := st.file_type }

/-- The update `setUploadedFiles(prev => prev.map(f => f.id === fileId ? {...}
: f))` performed after each successful poll. -/
def updateFiles (files : List UploadedFile) (fileId : String) (st : StatusResponse) :
    List UploadedFile :=
  files.map fun f => if f.id = fileId then applyStatus st f else f

/-- C9: the status update rewrites, position by position, exactly the entries
whose id equals the polled file id — every other entry is returned unchanged —
and it preserves the length (hence the order) of the uploaded-files list;
moreover the rewrite touches only the status fields: id, name and uploadedAt
are kept. -/
theorem C9_update_frame (files : List UploadedFile) (fileId : String) (st : StatusResponse) :
    (updateFiles files fileId st).length = files.length ∧
    (∀ i (hi : i < files.length) (hi' : i < (updateFiles files fileId st).length),
      (updateFiles files fileId st).get ⟨i, hi'⟩ =
        (if (files.get ⟨i, hi⟩).id = fileId then applyStatus st (files.get ⟨i, hi⟩)
          else files.get ⟨i, hi⟩)) ∧
    (∀ f, (applyStatus st f).id = f.id ∧ (applyStatus st f).name = f.name ∧
      (applyStatus st f).uploadedAt = f.uploadedAt) := by
  refine ⟨List.length_map _ _, ?_, ?_⟩
  · intro i hi hi'
    simp [updateFiles]
  · intro f
    simp [applyStatus]

/-- C9 (witness): on a concrete two-entry list, updating the entry with id
"f1" rewrites it and leaves the entry with id "f2" untouched. -/
theorem C9_update_frame_witness :
    (updateFiles
        [⟨"f1", "a.txt", "queued", 10, "t0", none, none, none, none⟩,
         ⟨"f2", "b.pdf", "queued", 10, "t1", none, none, none, none⟩]
        "f1" ⟨"completed", some 100, none, some 3, some 200, some "txt"⟩).get ⟨1, by decide⟩ =
      ⟨"f2", "b.pdf", "queued", 10, "t1", none, none, none, none⟩ := by
  have h := (C9_update_frame
    [⟨"f1", "a.txt", "queued", 10, "t0", none, none, none, none⟩,
     ⟨"f2", "b.pdf", "queued", 10, "t1", none, none, none, none⟩]
    "f1" ⟨"completed", some 100, none, some 3, some 200, some "txt"⟩).2.1 1 (by decide) (by decide)
  simpa using h

/-! ## Request building in `addMessage` (App.js) -/

/-- One prior conversation turn as serialized into `conversation_history`. -/
structure ChatTurn where
  role : String
  content : String
deriving DecidableEq, Repr

/-- A message of the current conversation (`messages` state in App.js);
only `role` and `content` are sent to the server. -/
structure Message where
  role : String
  content : String
  ident : Nat
deriving DecidableEq, Repr

/-- The JSON body posted to `/api/chat`. -/
structure ChatPayload where
  message : String
  mode : String
  use_rag : Bool
  conversation_history : List ChatTurn
deriving DecidableEq, Repr

/-- The request `addMessage` actually sends: either a `/api/chat` post, or —
for deep-research mode only — a `/api/deep-research` post whose body is just
`{query}`. -/
inductive GenRequest where
  | chat (payload : ChatPayload)
  | deepResearch (query : String)
deriving DecidableEq, Repr

/-- The frontend→backend mode mapping of App.js lines 176–192: the pair
`(backendMode, useRag)`. -/
def mapMode (mode : String) : String × Bool :=
  if mode = "rag-enhanced" then ("chat", true)
  else if mode = "summarize" then ("summarize", false)
  else if mode = "deep-research" then ("deep-research", true)
  else ("chat", true)

/-- `conversationHistory = messages.map(msg => ({role, content}))`. -/
def conversationHistoryOf (messages : List Message) : List ChatTurn :=
  messages.map fun m => ⟨m.role, m.content⟩

/-- The request built by `addMessage` for a user message, a mode and the
prior messages of the conversation: deep-research goes to its dedicated
endpoint with body `{query: userMessage}`; every other mode posts
`{message, mode, use_rag, conversation_history}` to `/api/chat`. -/
def buildRequest (mode userMessage : String) (messages : List Message) : GenRequest :=
  if mode = "deep-research" then .deepResearch userMessage
  else .chat ⟨userMessage, (mapMode mode).1, (mapMode mode).2, conversationHistoryOf messages⟩

/-- Whether a built request is a `/api/chat` request. -/
def isChatRequest : GenRequest → Bool
  | .chat _ => true
  | .deepResearch _ => false

/-- JS truthiness of an optional string field: present and non-empty. -/
def truthyStr : Option String → Bool
  | some s => s ≠ ""
  | none => false

/-- `data.response || data.summary || data.research || ''`, then
`if (!responseText) throw new Error('No response received from server')`. -/
def extractResponseText (response summary research : Option String) :
    Except String String :=
  let t :=
    if truthyStr response then response.getD ""
    else if truthyStr summary then summary.getD ""
    else if truthyStr research then research.getD ""
    else ""
  if t = "" then .error "No response received from server" else .ok t

/-- C4 (counterexample): in deep-research mode the client does not send a
chat/generate request carrying `{message, mode, useRag, conversationHistory}`
at all — it posts `{query}` to the dedicated `/api/deep-research` endpoint —
refuting the claim's "for every interaction mode". -/
theorem C4_deep_research_counterexample :
    buildRequest "deep-research" "q" [] = GenRequest.deepResearch "q" ∧
    isChatRequest (buildRequest "deep-research" "q" []) = false := by
  constructor <;> rfl

/-- C4 (amended): for every interaction mode other than deep-research, the
chat/generate request carries the fields `message` (the user message), `mode`
(the mapped backend mode), `use_rag` and `conversation_history` (the prior
turns, role and content); deep-research instead posts `{query}` to its own
endpoint; and in all modes the reply text the client accepts comes from the
`response` field or a mode-specific field (`summary` or `research`) of the
JSON response. -/
theorem C4_request_shape (mode userMessage : String) (messages : List Message) :
    (mode ≠ "deep-research" →
      buildRequest mode userMessage messages =
        GenRequest.chat ⟨userMessage, (mapMode mode).1, (mapMode mode).2,
          conversationHistoryOf messages⟩) ∧
    (buildRequest "deep-research" userMessage messages =
      GenRequest.deepResearch userMessage) ∧
    (∀ r s t v, extractResponseText r s t = Except.ok v →
      r = some v ∨ s = some v ∨ t = some v) := by
  refine ⟨?_, rfl, ?_⟩
  · intro h
    simp [buildRequest, h]
  · intro r s t v hv
    simp only [extractResponseText] at hv
    rcases r with _ | rv
    · rcases s with _ | sv
      · rcases t with _ | tv
        · simp [truthyStr] at hv
        · rcases eq_or_ne tv "" with rfl | ht
          · simp [truthyStr] at hv
          · simp [truthyStr, ht] at hv
            exact Or.inr (Or.inr (by rw [hv.symm]))
      · rcases eq_or_ne sv "" with rfl | hs
        · rcases t with _ | tv
          · simp [truthyStr] at hv
          · rcases eq_or_ne tv "" with rfl | ht
            · simp [truthyStr] at hv
            · simp [truthyStr, ht] at hv
              exact Or.inr (Or.inr (by rw [hv.symm]))
        · simp [truthyStr, hs] at hv
          exact Or.inr (Or.inl (by rw [hv.symm]))
    · rcases eq_or_ne rv "" with rfl | hr
      · rcases s with _ | sv
        · rcases t with _ | tv
          · simp [truthyStr] at hv
          · rcases eq_or_ne tv "" with rfl | ht
            · simp [truthyStr] at hv
            · simp [truthyStr, ht] at hv
              exact Or.inr (Or.inr (by rw [hv.symm]))
        · rcases eq_or_ne sv "" with rfl | hs
          · rcases t with _ | tv
            · simp [truthyStr] at hv
            · rcases eq_or_ne tv "" with rfl | ht
              · simp [truthyStr] at hv
              · simp [truthyStr, ht] at hv
                exact Or.inr (Or.inr (by rw [hv.symm]))
          · simp [truthyStr, hs] at hv
            exact Or.inr (Or.inl (by rw [hv.symm]))
      · simp [truthyStr, hr] at hv
        exact Or.inl (by rw [hv.symm])

/-- C4 (witness): in chat mode with one prior turn, the request is the
`/api/chat` payload with all four fields. -/
theorem C4_request_shape_witness :
    buildRequest "chat" "hello" [⟨"user", "hi", 1⟩] =
      GenRequest.chat ⟨"hello", "chat", true, [⟨"user", "hi"⟩]⟩ := by
  have h := (C4_request_shape "chat" "hello" [⟨"user", "hi", 1⟩]).1 (by decide)
  simpa [mapMode, conversationHistoryOf] using h

/-- C6: the mode mapping computed by `addMessage` disables retrieval exactly
for summarize mode — `use_rag` is `false` for `"summarize"` and `true` for
chat, deep-research, rag-enhanced and every unrecognized mode. -/
theorem C6_use_rag_mapping :
    (mapMode "summarize").2 = false ∧
    ∀ mode : String, mode ≠ "summarize" → (mapMode mode).2 = true := by
  refine ⟨rfl, ?_⟩
  intro mode h
  by_cases h1 : mode = "rag-enhanced"
  · simp [mapMode, h1]
  · by_cases h2 : mode = "deep-research"
    · simp [mapMode, h1, h, h2]
    · simp [mapMode, h1, h, h2]

/-- C6 (witness): concrete modes — `use_rag` is true for `"chat"` and for the
unrecognized mode `"other"`, false for `"summarize"`. -/
theorem C6_use_rag_mapping_witness :
    (mapMode "summarize").2 = false ∧ (mapMode "chat").2 = true ∧
      (mapMode "other").2 = true := by
  exact ⟨C6_use_rag_mapping.1, C6_use_rag_mapping.2 "chat" (by decide),
    C6_use_rag_mapping.2 "other" (by decide)⟩

/-! ## Upload file selector (ChatArea.js `handlePlusMenuAction 'add-files'`) -/

/-- The extension list of `fileInput.accept =
'.pdf,.doc,.docx,.txt,.md,.py,.js,.java,.cpp,.c,.html,.css,.json,.xml'`. -/
def acceptedExtensions : List String :=
  [".pdf", ".doc", ".docx", ".txt", ".md", ".py", ".js", ".java", ".cpp", ".c",
   ".html", ".css", ".json", ".xml"]

/-- C5: the upload selector accepts the document, markdown, text and
source-code formats the spec names, but not the image formats — `.png` and
`.jpg` are missing from the accept list even though the spec (and the backend
README, and the menu item "Add Photos and Files") includes PNG/JPG (OCR)
among supported ingest formats.  This evaluates the accept list at the
failing inputs. -/
theorem C5_accept_list :
    (".pdf" ∈ acceptedExtensions ∧ ".docx" ∈ acceptedExtensions ∧
     ".txt" ∈ acceptedExtensions ∧ ".md" ∈ acceptedExtensions ∧
     ".py" ∈ acceptedExtensions ∧ ".js" ∈ acceptedExtensions ∧
     ".java" ∈ acceptedExtensions ∧ ".cpp" ∈ acceptedExtensions ∧
     ".c" ∈ acceptedExtensions ∧ ".html" ∈ acceptedExtensions ∧
     ".css" ∈ acceptedExtensions ∧ ".json" ∈ acceptedExtensions ∧
     ".xml" ∈ acceptedExtensions) ∧
    ".png" ∉ acceptedExtensions ∧ ".jpg" ∉ acceptedExtensions := by
  decide

/-! ## Chunker (modelled from the spec; the backend source is not in the
repository snapshot) -/

/-- Modelled from the spec: the sliding-window chunker (§4.2).  Window `i`
covers `[i*(chunkSize-overlap), i*(chunkSize-overlap)+chunkSize)` clipped to
the text length, and windows stop once a window's start reaches `len`; so the
windows are exactly those with `i * stride < len`, i.e. `⌈len/stride⌉` many.
`overlap ≥ chunkSize` is a configuration error (`none`). -/
def chunkBoundaries (len chunkSize overlap : Nat) : Option (List (Nat × Nat)) :=
  if overlap < chunkSize then
    let stride := chunkSize - overlap
    some ((List.range ((len + stride - 1) / stride)).map
      fun i => (i * stride, min (i * stride + chunkSize) len))
  else none

/-- Modelled from the spec: on success of indexing the job records
`chunksAdded` = the number of chunks produced (§4.5). -/
def jobChunksAdded (len chunkSize overlap : Nat) : Option Nat :=
  (chunkBoundaries len chunkSize overlap).map List.length

/-- C7: chunking a 1200-character text with `chunkSize = 512` and
`overlap = 50` produces exactly the three windows `[0,512)`, `[462,974)` and
`[924,1200)`, and the completed job records `chunksAdded = 3`. -/
theorem C7_chunk_1200 :
    chunkBoundaries 1200 512 50 = some [(0, 512), (462, 974), (924, 1200)] ∧
    jobChunksAdded 1200 512 50 = some 3 := by
  constructor <;> rfl

/-! ## Settings persistence (Settings.js) -/

/-- A `localStorage` snapshot: later `setItem`s shadow earlier bindings. -/
def LocalStore := List (String × String)

/-- `localStorage.getItem`: the most recently set value for the key, if any. -/
def getItem (s : LocalStore) (k : String) : Option String :=
  (List.find? (fun p => p.1 == k) s).map Prod.snd

/-- `localStorage.setItem`. -/
def setItem (s : LocalStore) (k v : String) : LocalStore :=
  (k, v) :: s

/-- The `useState` initializer for the chat-history toggle:
`saved !== null ? saved === 'true' : true`. -/
def initChatHistory (s : LocalStore) : Bool :=
  match getItem s "omnivault-chat-history" with
  | some v => v == "true"
  | none => true

/-- The persistence effect for the chat-history toggle:
`localStorage.setItem('omnivault-chat-history', chatHistory)` (JS stringifies
the boolean to `'true'`/`'false'`). -/
def persistChatHistory (s : LocalStore) (b : Bool) : LocalStore :=
  setItem s "omnivault-chat-history" (if b then "true" else "false")

/-- The `useState` initializer for the shared-links toggle. -/
def initSharedLinks (s : LocalStore) : Bool :=
  match getItem s "omnivault-shared-links" with
  | some v => v == "true"
  | none => true

/-- The persistence effect for the shared-links toggle. -/
def persistSharedLinks (s : LocalStore) (b : Bool) : LocalStore :=
  setItem s "omnivault-shared-links" (if b then "true" else "false")

/-- The `useState` initializer for the language:
`localStorage.getItem('omnivault-language') || 'English'` (JS `||` also treats
an empty stored string as falsy). -/
def initLanguage (s : LocalStore) : String :=
  match getItem s "omnivault-language" with
  | some v => if v = "" then "English" else v
  | none => "English"

/-- The persistence effect for the language. -/
def persistLanguage (s : LocalStore) (l : String) : LocalStore :=
  setItem s "omnivault-language" l

/-- The option values of the language `<select>` in Settings.js — the only
values the user can set. -/
def languageOptions : List String :=
  ["English", "Spanish", "French", "German", "Italian", "Portuguese",
   "Chinese", "Japanese"]

/-- The empty store: a browser profile in which no setting has been saved. -/
def emptyStore : LocalStore := []

/-- C10: the three Settings values round-trip through localStorage — after the
user sets the chat-history toggle, the shared-links toggle or the language (to
any of the selector's option values), a fresh initialization of the Settings
component reads back exactly the value that was set; with nothing stored the
initial values are `true`, `true` and `"English"`. -/
theorem C10_settings_roundtrip (s : LocalStore) (b b' : Bool) (l : String) :
    initChatHistory (persistChatHistory s b) = b ∧
    initSharedLinks (persistSharedLinks s b') = b' ∧
    (l ∈ languageOptions → initLanguage (persistLanguage s l) = l) ∧
    initChatHistory emptyStore = true ∧
    initSharedLinks emptyStore = true ∧
    initLanguage emptyStore = "English" := by
  refine ⟨?_, ?_, ?_, rfl, rfl, rfl⟩
  · cases b <;> rfl
  · cases b' <;> rfl
  · intro hl
    have hne : l ≠ "" := by
      intro he
      subst he
      revert hl
      decide
    simp [initLanguage, persistLanguage, setItem, getItem, List.find?, hne]

/-- C10 (witness): setting chat-history to `false` and the language to
`"French"` on a concrete store reads back those exact values. -/
theorem C10_settings_roundtrip_witness :
    initChatHistory (persistChatHistory emptyStore false) = false ∧
    initLanguage (persistLanguage emptyStore "French") = "French" := by
  exact ⟨(C10_settings_roundtrip emptyStore false false "French").1,
    (C10_settings_roundtrip emptyStore false false "French").2.2.1 (by decide)⟩

/-! ## `parseMessage` (ChatArea.js): code-fence splitting

The JS parser runs `/` ``` `(\w+)?\n?([\s\S]*?)` ``` `/g` over the message and
collects text and code parts.  The regex is modelled directly: a match at
position `p` needs a literal triple backquote, then the greedy word-character
run (the optional language), an optional newline, and then the lazy body ends
at the next triple backquote.  Backtracking cannot produce any other match
because word characters and the newline are never backquotes, so shrinking the
greedy parts can never expose an earlier closing fence. -/

/-- The backquote character, written by code point to keep the source plain. -/
def backquote : Char := Char.ofNat 96

/-- JS `\w`: ASCII letters, digits and underscore. -/
def isWordChar (c : Char) : Bool := c.isAlphanum || c == '_'

/-- Does the list start with three backquotes? -/
def startsWithTriple : List Char → Bool
  | c1 :: c2 :: c3 :: _ => c1 == backquote && c2 == backquote && c3 == backquote
  | _ => false

/-- Index of the first triple-backquote occurrence, if any. -/
def firstTripleIdx : List Char → Option Nat
  | [] => none
  | c :: rest =>
      if startsWithTriple (c :: rest) then some 0
      else (firstTripleIdx rest).map (· + 1)

/-- `content.substring(a, b)` for `a ≤ b`. -/
def slice (s : List Char) (a b : Nat) : List Char := (s.drop a).take (b - a)

/-- One regex match: `idx` is `match.index`, `stop` is the index just past
`match[0]`, `language` is `match[1] || ''` and `body` is `match[2]`. -/
structure FenceMatch where
  idx : Nat
  stop : Nat
  language : List Char
  body : List Char
deriving DecidableEq, Repr

/-- Attempt the fence regex at position `p`. -/
def matchAt (s : List Char) (p : Nat) : Option FenceMatch :=
  if startsWithTriple (s.drop p) then
    let lang := (s.drop (p + 3)).takeWhile isWordChar
    let w := lang.length
    let nl := if (s.drop (p + 3 + w)).head? = some '\n' then 1 else 0
    let bodyStart := p + 3 + w + nl
    match firstTripleIdx (s.drop bodyStart) with
    | some off => some ⟨p, bodyStart + off + 3, lang, slice s bodyStart (bodyStart + off)⟩
    | none => none
  else none

/-- First match at a position `≥ p`; the fuel bounds the scan (positions up to
`s.length` are enough, past the end no triple backquote can start). -/
def findMatchAux (s : List Char) : Nat → Nat → Option FenceMatch
  | 0, _ => none
  | fuel + 1, p =>
      match matchAt s p with
      | some m => some m
      | none => findMatchAux s fuel (p + 1)

/-- `codeBlockRegex.exec(content)` with `lastIndex = start`. -/
def findMatchFrom (s : List Char) (start : Nat) : Option FenceMatch :=
  findMatchAux s (s.length + 1 - start) start

/-- A rendered message part: plain text or a code block. -/
inductive Part where
  | text (content : List Char)
  | code (language : List Char) (code : List Char)
deriving DecidableEq, Repr

/-- The whitespace JS `String.prototype.trim` removes (ASCII portion). -/
def isJsWhitespace (c : Char) : Bool :=
  c == ' ' || c == '\t' || c == '\n' || c == '\r' ||
    c == Char.ofNat 11 || c == Char.ofNat 12

/-- JS `text.trim()`. -/
def jsTrim (l : List Char) : List Char :=
  ((l.dropWhile isJsWhitespace).reverse.dropWhile isJsWhitespace).reverse

/-- The `while ((match = codeBlockRegex.exec(content)) !== null)` loop of
`parseMessage`, plus the trailing-text push after it.  Each iteration with a
match advances `lastIndex` by at least six characters, so `s.length + 1` fuel
(used by `parseMessage` below) always outlasts the loop. -/
def parseLoop (s : List Char) : Nat → Nat → List Part
  | 0, _ => []
  | fuel + 1, lastIndex =>
      match findMatchFrom s lastIndex with
      | some m =>
          (if lastIndex < m.idx ∧ jsTrim (slice s lastIndex m.idx) ≠ [] then
            [Part.text (slice s lastIndex m.idx)]
          else []) ++
          (if jsTrim m.body ≠ [] then [Part.code m.language (jsTrim m.body)] else []) ++
          parseLoop s fuel m.stop
      | none =>
          if lastIndex < s.length ∧ jsTrim (s.drop lastIndex) ≠ [] then
            [Part.text (s.drop lastIndex)]
          else []

/-- `parseMessage(content)`: run the loop; if no parts were produced, return
the original content as a single text part. -/
def parseMessage (s : List Char) : List Part :=
  if parseLoop s (s.length + 1) 0 = [] then [Part.text s]
  else parseLoop s (s.length + 1) 0

/-- The decomposition of the message induced by the successive regex matches:
the text between matches (when non-empty) and each fenced block, in order,
with nothing dropped and nothing trimmed. -/
inductive Segment where
  | textSeg (content : List Char)
  | codeSeg (language : List Char) (body : List Char)
deriving DecidableEq, Repr

/-- Companion of `parseLoop` that keeps every segment. -/
def segmentsLoop (s : List Char) : Nat → Nat → List Segment
  | 0, _ => []
  | fuel + 1, lastIndex =>
      match findMatchFrom s lastIndex with
      | some m =>
          (if lastIndex < m.idx then [Segment.textSeg (slice s lastIndex m.idx)] else []) ++
          Segment.codeSeg m.language m.body :: segmentsLoop s fuel m.stop
      | none =>
          if lastIndex < s.length then [Segment.textSeg (s.drop lastIndex)] else []

/-- The left-to-right decomposition of a message into text runs and fenced
code blocks. -/
def segments (s : List Char) : List Segment := segmentsLoop s (s.length + 1) 0

/-- How a segment surfaces as a part: whitespace-only text segments and
code blocks whose trimmed body is empty are dropped; a surviving code part's
code is the fenced body trimmed of surrounding whitespace. -/
def renderSegment : Segment → Option Part
  | .textSeg t => if jsTrim t ≠ [] then some (.text t) else none
  | .codeSeg lang b => if jsTrim b ≠ [] then some (.code lang (jsTrim b)) else none

theorem parseLoop_eq_filterMap (s : List Char) :
    ∀ fuel lastIndex,
      parseLoop s fuel lastIndex =
        (segmentsLoop s fuel lastIndex).filterMap renderSegment := by
  intro fuel
  induction fuel with
  | zero => intro lastIndex; rfl
  | succ fuel ih =>
    intro lastIndex
    rw [parseLoop, segmentsLoop]
    cases h : findMatchFrom s lastIndex with
    | some m =>
      simp only [h]
      rw [List.filterMap_append, List.filterMap_cons, ih m.stop]
      by_cases h2 : jsTrim m.body = [] <;> by_cases h1 : lastIndex < m.idx <;>
        by_cases h3 : jsTrim (slice s lastIndex m.idx) = [] <;>
          simp [renderSegment, h1, h2, h3]
    | none =>
      simp only [h]
      by_cases h1 : lastIndex < s.length
      · simp only [h1, true_and]
        by_cases h2 : jsTrim (s.drop lastIndex) ≠ [] <;>
          simp [h1, h2, renderSegment]
      · simp [h1]

theorem firstTripleIdx_tail {c : Char} {rest : List Char}
    (h : firstTripleIdx (c :: rest) = none) : firstTripleIdx rest = none := by
  rw [firstTripleIdx] at h
  split at h
  · cases h
  · exact Option.map_eq_none'.mp h

theorem firstTripleIdx_startsWith {l : List Char} (h : firstTripleIdx l = none) :
    startsWithTriple l = false := by
  cases l with
  | nil => rfl
  | cons c rest =>
    rw [firstTripleIdx] at h
    split at h
    · cases h
    · simp_all

theorem firstTripleIdx_drop {s : List Char} (h : firstTripleIdx s = none) :
    ∀ p, firstTripleIdx (s.drop p) = none := by
  intro p
  induction p generalizing s with
  | zero => simpa using h
  | succ p ih =>
    cases s with
    | nil => rfl
    | cons c rest => exact ih (firstTripleIdx_tail h)

theorem matchAt_none_of_noTriple {s : List Char} (h : firstTripleIdx s = none)
    (p : Nat) : matchAt s p = none := by
  rw [matchAt, firstTripleIdx_startsWith (firstTripleIdx_drop h p)]
  simp

theorem findMatchAux_none_of_noTriple {s : List Char} (h : firstTripleIdx s = none) :
    ∀ fuel p, findMatchAux s fuel p = none := by
  intro fuel
  induction fuel with
  | zero => intro p; rfl
  | succ fuel ih =>
    intro p
    rw [findMatchAux, matchAt_none_of_noTriple h p]
    exact ih (p + 1)

/-- C8: a message containing no triple backquote is returned as exactly one
text part carrying the original content unchanged; and in general the parts
returned are, in their original left-to-right order, the rendered segments of
the fence decomposition — whitespace-only text segments dropped, each code
part's code equal to the fenced body trimmed of surrounding whitespace — with
the whole original content as a single text part when no part survives. -/
theorem C8_parseMessage (s : List Char) :
    (firstTripleIdx s = none → parseMessage s = [Part.text s]) ∧
    parseMessage s =
      (if (segments s).filterMap renderSegment = [] then [Part.text s]
       else (segments s).filterMap renderSegment) := by
  constructor
  · intro h
    have hf : findMatchFrom s 0 = none :=
      findMatchAux_none_of_noTriple h _ 0
    rw [parseMessage, parseLoop, hf]
    simp only [List.drop_zero]
    by_cases h1 : 0 < s.length ∧ jsTrim s ≠ []
    · simp [h1]
    · simp [h1]
  · rw [parseMessage, parseLoop_eq_filterMap]
    rfl

/-- C8 (witness): `"hi"` has no fence and parses to one unchanged text part. -/
theorem C8_parseMessage_witness :
    firstTripleIdx "hi".toList = none ∧
      parseMessage "hi".toList = [Part.text "hi".toList] := by
  refine ⟨by decide, (C8_parseMessage "hi".toList).1 (by decide)⟩

end Omnivault
